import Mathlib

/-!
Verification of the Borg/HackForge discovery-research-compare pipeline
(`src/hackforge/engines/link_intel.py`) and the pipeline event bus
(`src/hackforge/pipeline_bus.py`) against its natural-language specification.

Modelling conventions:
* Python `float` values (confidence scores, overlap scores) are modelled as
  exact rationals (`Rat`); `round(x, 2)` and the `:.0%` format are modelled by
  round-half-to-even on rationals, matching CPython's rounding mode.
* `datetime` provenance fields (`researched_at`, `scraped_at`, `timestamp`)
  carry no logic and are omitted (timestamps in `PipelineEvent` are kept as an
  opaque string field).
* Network / filesystem effects are modelled by an explicit environment
  (`Env`) supplying the outcome of each provider call; exceptions raised by a
  provider are modelled with `Except` or with explicit failure constructors.
  Functions of the source that catch all exceptions internally are modelled as
  total functions.
-/

namespace HackForge

/-- Entity: a tool, vendor, or API discovered from raw text
(`link_intel.py`, class `Entity`). `confidence` is a Python float in [0,1],
modelled as a rational. -/
structure Entity where
  name : String
  entity_type : String := "tool"
  raw_mention : String := ""
  confidence : Rat := 1
deriving DecidableEq, Repr

/-- DiscoveredTool: enriched description of a discovered tool after deep
research (`link_intel.py`, class `DiscoveredTool`). -/
structure DiscoveredTool where
  name : String
  vendor : String := ""
  description : String := ""
  api_url : String := ""
  capabilities : List String := []
  auth_type : String := ""
  has_free_tier : Bool := false
  pricing_url : String := ""
  docs_url : String := ""
deriving DecidableEq, Repr

/-- EntityResearch: results of deep-researching a single entity
(`link_intel.py`, class `EntityResearch`; the `researched_at` timestamp is
omitted). -/
structure EntityResearch where
  entity : Entity
  tool : DiscoveredTool
  raw_research : String := ""
  sources : List String := []
deriving DecidableEq, Repr

/-- ExistingTool: a tool that already exists in the harness
(`link_intel.py`, class `ExistingTool`). -/
structure ExistingTool where
  name : String
  description : String := ""
  config_path : String := ""
  capabilities : List String := []
deriving DecidableEq, Repr

/-- ToolComparison: side-by-side comparison between a newly discovered tool
and an existing one (`link_intel.py`, class `ToolComparison`). -/
structure ToolComparison where
  new_tool : DiscoveredTool
  existing_tool : ExistingTool
  overlap_score : Rat := 0
  new_capabilities : List String := []
  notes : String := ""
deriving DecidableEq, Repr

/-- RecommendedAction: a single recommended action for a discovered tool
(`link_intel.py`, class `RecommendedAction`). -/
structure RecommendedAction where
  tool_name : String
  action : String
  reason : String
  priority : Nat := 2
deriving DecidableEq, Repr

/-- LinkIntelReport: full report produced by `LinkIntelEngine.analyze_url`
(`link_intel.py`, class `LinkIntelReport`; the `scraped_at` timestamp is
omitted). -/
structure LinkIntelReport where
  url : String
  page_title : String := ""
  discovered_tools : List DiscoveredTool := []
  existing_alternatives : List ToolComparison := []
  recommended_actions : List RecommendedAction := []
  raw_entity_count : Nat := 0
  error : Option String := none
deriving DecidableEq, Repr

/-- Model of Python `str.lower()` for the ASCII strings this code base works
with: lowercase every character. Written via `List.map` so that it reduces
inside the kernel (`String.toLower` itself does not). -/
def lowerStr (s : String) : String := String.mk (s.data.map Char.toLower)

/-- Round-half-to-even to the nearest integer, the rounding mode of CPython's
builtin `round`. -/
def rndHalfEven (q : Rat) : Int :=
  if q - (⌊q⌋ : Rat) < 1/2 then ⌊q⌋
  else if 1/2 < q - (⌊q⌋ : Rat) then ⌊q⌋ + 1
  else if ⌊q⌋ % 2 = 0 then ⌊q⌋ else ⌊q⌋ + 1

/-- Model of Python `round(q, 2)`: round to two decimal places, ties to even. -/
def round2 (q : Rat) : Rat := ((rndHalfEven (q * 100) : Int) : Rat) / 100

/-- Model of the Python format `f"{q:.0%}"` used in recommendation reasons:
the value times 100, rounded half-to-even to an integer, with a percent
sign. -/
def pct0 (q : Rat) : String := toString (rndHalfEven (q * 100)) ++ "%"

/-- The `new_only` list of LinkIntelEngine._build_comparison: every new
capability whose lowercase form is not in the lowercased set of existing
capabilities (the Python code materialises `existing_caps_lower` as a set;
membership in that set is list membership here). -/
def newOnlyCaps (new_tool : DiscoveredTool) (existing : ExistingTool) :
    List String :=
  new_tool.capabilities.filter
    (fun c => !((existing.capabilities.map lowerStr).contains (lowerStr c)))

/-- The `overlap` value of LinkIntelEngine._build_comparison before rounding:
`overlap_count / max(len(new_caps), len(existing.capabilities))` where
`overlap_count = len(new_caps) - len(new_only)`, computed only when both
capability lists are non-empty (Python truthiness), else 0. -/
def rawOverlap (new_tool : DiscoveredTool) (existing : ExistingTool) : Rat :=
  if new_tool.capabilities ≠ [] ∧ existing.capabilities ≠ [] then
    ((new_tool.capabilities.length - (newOnlyCaps new_tool existing).length : Nat) : Rat) /
      ((max new_tool.capabilities.length existing.capabilities.length : Nat) : Rat)
  else 0

/-- LinkIntelEngine._build_comparison: build a side-by-side comparison between
new and existing tools. -/
def buildComparison (new_tool : DiscoveredTool) (existing : ExistingTool) :
    ToolComparison :=
  { new_tool := new_tool
    existing_tool := existing
    overlap_score := round2 (rawOverlap new_tool existing)
    new_capabilities := newOnlyCaps new_tool existing
    notes := "New tool adds " ++ toString (newOnlyCaps new_tool existing).length ++
      " capability(ies) not present in existing tool." }

/-- Model of the dict comprehension `comparison_map = {c.new_tool.name: c for c
in comparisons}` followed by lookup: last binding wins, so look for the last
comparison whose new tool carries the given name. -/
def findComparison (comparisons : List ToolComparison) (name : String) :
    Option ToolComparison :=
  comparisons.reverse.find? (fun c => c.new_tool.name == name)

/-- Loop body of LinkIntelEngine._generate_recommendations for one researched
entity: no registry comparison yields integrate/priority 1; overlap above 0.8
with no new capabilities yields skip; overlap above 0.5 yields evaluate;
anything else yields integrate/priority 2. -/
def recommendFor (comparisons : List ToolComparison) (er : EntityResearch) :
    RecommendedAction :=
  let name := er.tool.name
  match findComparison comparisons name with
  | none =>
    { tool_name := name
      action := "integrate"
      reason := "No existing alternative found in harness — integrate as new tool."
      priority := 1 }
  | some comp =>
    if comp.overlap_score > 4/5 ∧ comp.new_capabilities = [] then
      { tool_name := name
        action := "skip"
        reason := "High overlap (" ++ pct0 comp.overlap_score ++
          ") with existing tool \x27" ++ comp.existing_tool.name ++
          "\x27 and no new capabilities."
        priority := 3 }
    else if comp.overlap_score > 1/2 then
      { tool_name := name
        action := "evaluate"
        reason := "Partial overlap (" ++ pct0 comp.overlap_score ++
          ") with \x27" ++ comp.existing_tool.name ++ "\x27 but adds: " ++
          String.intercalate ", " (comp.new_capabilities.take 3)
        priority := 2 }
    else
      { tool_name := name
        action := "integrate"
        reason := "Low overlap (" ++ pct0 comp.overlap_score ++
          ") with existing tool — sufficiently different to justify integration."
        priority := 2 }

/-- LinkIntelEngine._generate_recommendations: one recommended action per
researched entity, in order. -/
def generateRecommendations (researched : List EntityResearch)
    (comparisons : List ToolComparison) : List RecommendedAction :=
  researched.map (recommendFor comparisons)

/-- Rounding an integer value is the identity. -/
theorem rndHalfEven_intCast (n : Int) : rndHalfEven (n : Rat) = n := by
  simp [rndHalfEven]

theorem round2_zero : round2 0 = 0 := by
  have h0 : rndHalfEven 0 = 0 := by simpa using rndHalfEven_intCast 0
  have h : ((0 : Rat) * 100) = 0 := by norm_num
  rw [round2, h, h0]
  norm_num

theorem round2_half : round2 (1/2) = 1/2 := by
  have h : ((1/2 : Rat) * 100) = ((50 : Int) : Rat) := by norm_num
  rw [round2, h, rndHalfEven_intCast]
  norm_num

theorem round2_one : round2 1 = 1 := by
  have h : ((1 : Rat) * 100) = ((100 : Int) : Rat) := by norm_num
  rw [round2, h, rndHalfEven_intCast]
  norm_num

example :
    (buildComparison { name := "N", capabilities := ["search", "rerank"] }
      { name := "E", capabilities := ["search"] }).overlap_score = 1/2 := by
  have honly : newOnlyCaps { name := "N", capabilities := ["search", "rerank"] }
      { name := "E", capabilities := ["search"] } = ["rerank"] := by decide
  have hraw : rawOverlap { name := "N", capabilities := ["search", "rerank"] }
      { name := "E", capabilities := ["search"] } = 1/2 := by
    rw [rawOverlap, if_pos (by simp)]
    rw [honly]
    norm_num
  show round2 (rawOverlap _ _) = 1/2
  rw [hraw, round2_half]

example :
    (buildComparison { name := "N", capabilities := ["search", "rerank"] }
      { name := "E", capabilities := ["search"] }).new_capabilities = ["rerank"] := by
  decide

/-- Outcome of the `try` block of LinkIntelEngine._research_entity for one
entity, as decided by the external providers: either the Tavily search and the
Fastino parse both complete (`ok`, carrying the accumulated raw text, the
collected source URLs and the parsed tool, which `_parse_tool_research`
guarantees to be some `DiscoveredTool` — a minimal stub if its own parsing
failed), or an exception escapes the block (`fail`, carrying whatever partial
raw text and sources had been accumulated when the exception was raised). -/
inductive ResearchOutcome where
  | ok (raw_text : String) (sources : List String) (tool : DiscoveredTool)
  | fail (raw_text : String) (sources : List String)
deriving DecidableEq, Repr

/-- The minimal `DiscoveredTool(name=entity.name)` stub built by
`_research_entity` when research fails: only the name is set, every other
field keeps its (empty) default. -/
def minimalTool (name : String) : DiscoveredTool := { name := name }

/-- LinkIntelEngine._research_entity: deep-research a single entity. The
function catches every exception of its research/parse block and falls back to
the minimal tool stub, so it is total: it always returns an
`EntityResearch`. `raw_research` is truncated to 4000 characters as in the
source. -/
def researchEntity (outcome : Entity → ResearchOutcome) (entity : Entity) :
    EntityResearch :=
  match outcome entity with
  | .ok raw srcs tool =>
    { entity := entity, tool := tool, raw_research := raw.take 4000, sources := srcs }
  | .fail raw srcs =>
    { entity := entity, tool := minimalTool entity.name
      raw_research := raw.take 4000, sources := srcs }

/-- A match found by LinkIntelEngine._check_existing in the registry: the
matching line of `tool-broker.md` (or the MCP-server description) and the
provenance path. -/
structure RegistryHit where
  description : String
  config_path : String
deriving DecidableEq, Repr

/-- LinkIntelEngine._check_existing: look the entity up in the registry. The
lookup itself (file reads, directory scan) is environment-driven and may raise
(`Except.error`); on a hit the function builds
`ExistingTool(name=entity.name, description=..., config_path=...)` — note that
`capabilities` is never passed and therefore always keeps its empty default. -/
def checkExisting (lookup : Entity → Except String (Option RegistryHit))
    (entity : Entity) : Except String (Option ExistingTool) :=
  match lookup entity with
  | .error msg => .error msg
  | .ok none => .ok none
  | .ok (some hit) =>
    .ok (some { name := entity.name, description := hit.description
                config_path := hit.config_path })

/-- Environment of one `analyze_url` run: the outcome of every external call.
`scrape` models `_scrape_page` (total: it catches all exceptions and returns
empty strings on failure); `extract` models the `_extract_entities` cascade
(total: the keyword fallback never fails); `research` gives the outcome of
each entity's research block; `lookup` gives the outcome of each registry
lookup (it may raise, e.g. on an undecodable `tool-broker.md`). -/
structure Env where
  scrape : String → String × String
  extract : String → List Entity
  research : Entity → ResearchOutcome
  lookup : Entity → Except String (Option RegistryHit)

/-- Step 5 loop of LinkIntelEngine.analyze_url: for each researched entity,
check the registry and, on a hit, build a comparison. An exception escaping a
lookup aborts the loop (and is caught by the top-level handler of
`analyze_url`). -/
def compareAll (env : Env) : List EntityResearch → Except String (List ToolComparison)
  | [] => .ok []
  | er :: rest =>
    match checkExisting env.lookup er.entity with
    | .error msg => .error msg
    | .ok none => compareAll env rest
    | .ok (some existing) =>
      match compareAll env rest with
      | .error msg => .error msg
      | .ok comps => .ok (buildComparison er.tool existing :: comps)

/-- LinkIntelEngine.analyze_url: the full pipeline. Stages: scrape (on empty
content, return an error-only report), extract, research each entity (the
research step is total, see `researchEntity`), persist to Neo4j (best-effort,
swallowed, no effect on the report — not modelled), compare against the
registry (an exception here is caught by the top-level handler, which stores
its message in `report.error`, leaving the tool/action lists at their
defaults), and assemble the report. -/
def analyzeUrl (env : Env) (url : String) : LinkIntelReport :=
  let scraped := env.scrape url
  -- the source assigns `report.page_title` only when the scraped title is
  -- truthy; since the default is the empty string, the field always ends up
  -- equal to the scraped title when non-empty and empty otherwise.
  let r1 : LinkIntelReport :=
    { url := url, page_title := if scraped.2 ≠ "" then scraped.2 else "" }
  if scraped.1 = "" then
    { r1 with error := some "Could not retrieve page content." }
  else
    let entities := env.extract scraped.1
    let r2 := { r1 with raw_entity_count := entities.length }
    let researched := entities.map (researchEntity env.research)
    match compareAll env researched with
    | .error msg => { r2 with error := some msg }
    | .ok comparisons =>
      { r2 with
        discovered_tools := researched.map (fun er => er.tool)
        existing_alternatives := comparisons
        recommended_actions := generateRecommendations researched comparisons }

/-- Word character of the regex metaclass `\w` (and hence of the boundary
assertion `\b`): alphanumeric or underscore (ASCII; the inputs of the claims
are ASCII). -/
def wordChar (c : Char) : Bool := c.isAlphanum || c = '_'

/-- Whitespace of the regex metaclass `\s` (ASCII part). -/
def pySpace (c : Char) : Bool :=
  c = ' ' || c = '\t' || c = '\n' || c = '\r' || c = '\x0b' || c = '\x0c'

/-- Model of Python `str.strip()`: drop whitespace from both ends. -/
def trimChars (l : List Char) : List Char :=
  ((l.dropWhile pySpace).reverse.dropWhile pySpace).reverse

/-- Longest run of characters satisfying `p` at the front of the list, with
the remainder. Models a maximal greedy character-class repetition. -/
def takeRun (p : Char → Bool) : List Char → List Char × List Char
  | [] => ([], [])
  | c :: cs =>
    if p c then
      match takeRun p cs with
      | (run, rest) => (c :: run, rest)
    else ([], c :: cs)

/-- LinkIntelEngine._KNOWN_TOOL_NAMES: curated names for the keyword
fallback. -/
def knownToolNames : List String := [
  "Tavily", "Reka", "Fastino", "Neo4j", "Yutori", "Senso", "Modulate",
  "Airbyte", "Render", "AWS", "OpenAI", "Numeric", "LangChain",
  "Anthropic", "Hugging Face", "HuggingFace", "Pinecone", "Weaviate",
  "Cohere", "Replicate", "Mistral", "Groq", "Together AI", "Perplexity",
  "Vercel", "Supabase", "Firebase", "MongoDB", "Redis", "Postgres",
  "Stripe", "Twilio", "SendGrid", "Algolia", "Elastic", "Datadog",
  "Sentry", "LaunchDarkly", "Segment", "Amplitude", "Mixpanel",
  "Cloudflare", "Fly.io", "Railway", "Neon", "PlanetScale", "Turso",
  "Upstash", "Convex", "Clerk", "Auth0", "Okta", "WorkOS",
  "LlamaIndex", "ChromaDB", "Chroma", "Qdrant", "Milvus", "Zilliz",
  "Unstructured", "DocArray", "Haystack", "Marqo", "Vespa",
  "Stability AI", "Midjourney", "ElevenLabs", "Deepgram", "AssemblyAI",
  "Whisper", "DALL-E", "GPT-4", "Claude", "Gemini", "Llama",
  "Streamlit", "Gradio", "Chainlit", "Modal", "Banana", "Baseten",
  "Cerebrium", "RunPod", "Lambda", "Anyscale", "Weights & Biases",
  "MLflow", "DVC", "ClearML", "Neptune", "Comet"]

/-- LinkIntelEngine._URL_TOOL_MAP: URL slugs mapped to canonical names. -/
def urlToolMap : List (String × String) := [
  ("tavily", "Tavily"), ("reka", "Reka"), ("fastino", "Fastino"),
  ("neo4j", "Neo4j"), ("yutori", "Yutori"), ("senso", "Senso"),
  ("modulate", "Modulate"), ("airbyte", "Airbyte"), ("render", "Render"),
  ("openai", "OpenAI"), ("langchain", "LangChain"), ("anthropic", "Anthropic"),
  ("huggingface", "Hugging Face"), ("pinecone", "Pinecone"),
  ("weaviate", "Weaviate"), ("cohere", "Cohere"), ("replicate", "Replicate"),
  ("mistral", "Mistral"), ("groq", "Groq"), ("together", "Together AI"),
  ("perplexity", "Perplexity"), ("vercel", "Vercel"), ("supabase", "Supabase"),
  ("firebase", "Firebase"), ("mongodb", "MongoDB"), ("redis", "Redis"),
  ("stripe", "Stripe"), ("twilio", "Twilio"), ("sendgrid", "SendGrid"),
  ("algolia", "Algolia"), ("elastic", "Elastic"), ("datadog", "Datadog"),
  ("sentry", "Sentry"), ("segment", "Segment"), ("cloudflare", "Cloudflare"),
  ("fly", "Fly.io"), ("railway", "Railway"), ("neon", "Neon"),
  ("planetscale", "PlanetScale"), ("upstash", "Upstash"), ("convex", "Convex"),
  ("clerk", "Clerk"), ("auth0", "Auth0"), ("workos", "WorkOS"),
  ("llamaindex", "LlamaIndex"), ("chromadb", "ChromaDB"), ("qdrant", "Qdrant"),
  ("milvus", "Milvus"), ("zilliz", "Zilliz"), ("stability", "Stability AI"),
  ("elevenlabs", "ElevenLabs"), ("deepgram", "Deepgram"),
  ("assemblyai", "AssemblyAI"), ("streamlit", "Streamlit"),
  ("gradio", "Gradio"), ("chainlit", "Chainlit"), ("modal", "Modal"),
  ("baseten", "Baseten"), ("runpod", "RunPod"), ("anyscale", "Anyscale"),
  ("wandb", "Weights & Biases"), ("mlflow", "MLflow"),
  ("numeric", "Numeric")]

/-- Case-insensitive match of `name` at the front of the text, followed by a
word boundary: every known tool name begins and ends with a word character, so
the trailing `\b` of `rf"\b{re.escape(name)}\b"` holds exactly when the next
character (if any) is not a word character. -/
def ciPrefixAfterBound : List Char → List Char → Bool
  | [], [] => true
  | [], c :: _ => !wordChar c
  | _ :: _, [] => false
  | n :: ns, c :: cs => (n.toLower == c.toLower) && ciPrefixAfterBound ns cs

/-- Model of `re.search(rf"\b{re.escape(name)}\b", text, re.IGNORECASE)`:
scan positions left to right; `prev` says whether the previous character is a
word character (the leading `\b` holds exactly when it is not, since every
name starts with a word character). On a match, return the matched slice of
the text (`match.group(0)`). -/
def findNameFrom (name : List Char) : Bool → List Char → Option (List Char)
  | _, [] => none
  | prev, c :: cs =>
    if !prev && ciPrefixAfterBound name (c :: cs) then
      some ((c :: cs).take name.length)
    else
      findNameFrom name (wordChar c) cs

/-- The insertion-ordered dict `found` of `_keyword_entity_fallback`, as an
association list in insertion order. -/
abbrev Found := List (String × Entity)

/-- Model of `if key not in found: found[key] = e` on an insertion-ordered
dict. -/
def insertAbsent (found : Found) (key : String) (e : Entity) : Found :=
  if found.any (fun p => p.1 == key) then found else found ++ [(key, e)]

/-- One iteration of strategy 1 of `_keyword_entity_fallback`: search for one
known name; on a hit, insert an entity carrying the canonical name,
confidence 0.7 and the matched slice as `raw_mention`. -/
def knownNameStep (text : List Char) (fd : Found) (name : String) : Found :=
  match findNameFrom name.data false text with
  | some m =>
    insertAbsent fd (lowerStr name)
      { name := name, entity_type := "tool", raw_mention := String.mk m
        confidence := 7/10 }
  | none => fd

/-- Strategy 1 of `_keyword_entity_fallback`: scan for each known tool/vendor
name with word-boundary, case-insensitive matching. -/
def knownNameScan (text : List Char) (found : Found) : Found :=
  knownToolNames.foldl (knownNameStep text) found

/-- Literal (case-sensitive) match of the suffix keyword at the front of the
text followed by a word boundary (every suffix keyword ends in a word
character, so `\b` holds exactly when the next character is not one). -/
def litKwBound : List Char → List Char → Bool
  | [], [] => true
  | [], c :: _ => !wordChar c
  | _ :: _, [] => false
  | k :: ks, c :: cs => (k == c) && litKwBound ks cs

/-- Tail `\s+KW\b` of a suffix pattern: one or more whitespace characters
(greedy, and since the keyword starts with a letter no backtracking into the
whitespace run can succeed) then the keyword with its trailing boundary.
Returns the number of characters consumed. -/
def tailKw (kw : List Char) (rest : List Char) : Option Nat :=
  match takeRun pySpace rest with
  | (sp, r2) =>
    if sp = [] then none
    else if litKwBound kw r2 then some (sp.length + kw.length) else none

/-- Anchored attempt of the suffix pattern
`([A-Z][a-zA-Z0-9]{2,}(?:\s[A-Z][a-zA-Z0-9]+)?)\s+KW\b` at the current
position (the leading `\b` is checked by the caller). Returns
`(group 1, length of group 0)`. Greedy semantics: the capitalised words take
their maximal alphanumeric runs (shrinking a run would place `\s` on an
alphanumeric character, so backtracking inside a run never helps); the
optional second word is tried first and the pattern falls back to the
one-word reading when the tail fails after it. -/
def trySuffix (kw : List Char) (text : List Char) : Option (List Char × Nat) :=
  match text with
  | [] => none
  | c0 :: cs =>
    if c0.isUpper then
      match takeRun Char.isAlphanum cs with
      | (run, rest) =>
        if run.length < 2 then none
        else
          let w1 := c0 :: run
          let oneWord : Option (List Char × Nat) :=
            match tailKw kw rest with
            | some tl => some (w1, w1.length + tl)
            | none => none
          match rest with
          | c1 :: cs1 =>
            if pySpace c1 then
              match cs1 with
              | c2 :: cs2 =>
                if c2.isUpper then
                  match takeRun Char.isAlphanum cs2 with
                  | (run2, rest2) =>
                    if run2 = [] then oneWord
                    else
                      match tailKw kw rest2 with
                      | some tl =>
                        some (w1 ++ c1 :: c2 :: run2,
                              w1.length + 2 + run2.length + tl)
                      | none => oneWord
                else oneWord
              | [] => oneWord
            else oneWord
          | [] => oneWord
    else none

/-- Model of `re.finditer(pattern, text)` for one suffix pattern: scan left to
right, attempt an anchored match at every boundary position, and resume after
the end of each match (non-overlapping matches). `fuel` bounds the recursion
(callers pass the text length plus one, which suffices since every step
consumes at least one character). -/
def scanSuffix (kw : List Char) : Nat → Bool → List Char → Found → Found
  | 0, _, _, found => found
  | _ + 1, _, [], found => found
  | fuel + 1, prev, c :: cs, found =>
    if !prev then
      match trySuffix kw (c :: cs) with
      | some (grp, totalLen) =>
        let nm := String.mk (trimChars grp)
        let fd := insertAbsent found (lowerStr nm)
          { name := nm, entity_type := "tool"
            raw_mention := String.mk ((c :: cs).take totalLen)
            confidence := 1/2 }
        let nextPrev := match ((c :: cs).take totalLen).getLast? with
          | some lc => wordChar lc
          | none => prev
        scanSuffix kw fuel nextPrev ((c :: cs).drop totalLen) fd
      | none => scanSuffix kw fuel (wordChar c) cs found
    else scanSuffix kw fuel (wordChar c) cs found

/-- The six suffix keywords of strategy 2, in source order. -/
def suffixKeywords : List String :=
  ["API", "SDK", "platform", "library", "framework", "integration"]

/-- Case-insensitive literal match at the front of the text; returns the rest
of the text after the match. -/
def ciLit : List Char → List Char → Option (List Char)
  | [], rest => some rest
  | _ :: _, [] => none
  | k :: ks, c :: cs => if k.toLower == c.toLower then ciLit ks cs else none

/-- Case-insensitive match of a keyword phrase (words joined by `\s+` in the
pattern, greedy whitespace runs). Returns the number of characters
consumed. -/
def ciKwPhrase : List (List Char) → List Char → Option Nat
  | [], _ => some 0
  | [w], rest =>
    match ciLit w rest with
    | some _ => some w.length
    | none => none
  | w :: ws, rest =>
    match ciLit w rest with
    | some r2 =>
      match takeRun pySpace r2 with
      | (sp, r3) =>
        if sp = [] then none
        else
          match ciKwPhrase ws r3 with
          | some n => some (w.length + sp.length + n)
          | none => none
    | none => none

/-- Capture group of the prefix pattern,
`([A-Z][a-zA-Z0-9]+(?:\s[A-Z][a-zA-Z0-9]+)?(?:\.\w+)?)` under `re.IGNORECASE`
(so `[A-Z]` accepts any letter): a word of at least two characters, an
optional single-whitespace-separated second word, an optional dotted
extension. All parts are greedy and nothing follows the group in the pattern,
so each part simply takes its maximal run when it can. -/
def tryGroupCore (rest : List Char) : Option (List Char) :=
  match rest with
  | [] => none
  | c0 :: cs =>
    if c0.isAlpha then
      match takeRun Char.isAlphanum cs with
      | (run, r2) =>
        if run = [] then none
        else
          let w1 := c0 :: run
          let secondWord : List Char × List Char :=
            match r2 with
            | c1 :: c2 :: cs2 =>
              if pySpace c1 && c2.isAlpha then
                match takeRun Char.isAlphanum cs2 with
                | (run2, rr) =>
                  if run2 = [] then ([], r2) else (c1 :: c2 :: run2, rr)
              else ([], r2)
            | _ => ([], r2)
          match secondWord with
          | (w2, r3) =>
            let ext : List Char :=
              match r3 with
              | '.' :: cs3 =>
                match takeRun wordChar cs3 with
                | (run3, _) => if run3 = [] then [] else '.' :: run3
              | _ => []
            some (w1 ++ w2 ++ ext)
    else none

/-- The keyword alternatives of the prefix pattern, in alternation order. -/
def prefKeywordAlts : List (List String) := [
  ["powered", "by"], ["built", "with"], ["built", "on"],
  ["sponsored", "by"], ["presented", "by"], ["backed", "by"],
  ["maintained", "by"], ["developed", "by"], ["created", "with"],
  ["hosted", "on"], ["deployed", "on"], ["runs", "on"], ["using"]]

/-- Anchored attempt of the prefix pattern at the current position: try each
keyword alternative in order; after a matching keyword, require `\s+` then the
capture group (there is no boundary assertion anywhere in this pattern). A
failing tail falls through to the next alternative, as the regex alternation
does. Returns `(group 1, length of group 0)`. -/
def tryPrefAlts : List (List String) → List Char → Option (List Char × Nat)
  | [], _ => none
  | alt :: alts, text =>
    match ciKwPhrase (alt.map String.data) text with
    | some klen =>
      match takeRun pySpace (text.drop klen) with
      | (sp, r2) =>
        if sp = [] then tryPrefAlts alts text
        else
          match tryGroupCore r2 with
          | some grp => some (grp, klen + sp.length + grp.length)
          | none => tryPrefAlts alts text
    | none => tryPrefAlts alts text

/-- Strategy 3 scanner (`re.finditer` over the prefix pattern, IGNORECASE):
scan every position, resume after each match; inserted entities carry
entity_type "vendor" and confidence 0.6. -/
def scanPref : Nat → List Char → Found → Found
  | 0, _, found => found
  | _ + 1, [], found => found
  | fuel + 1, c :: cs, found =>
    match tryPrefAlts prefKeywordAlts (c :: cs) with
    | some (grp, totalLen) =>
      let nm := String.mk (trimChars grp)
      let fd := insertAbsent found (lowerStr nm)
        { name := nm, entity_type := "vendor"
          raw_mention := String.mk ((c :: cs).take totalLen)
          confidence := 3/5 }
      scanPref fuel ((c :: cs).drop totalLen) fd
    | none => scanPref fuel cs found

/-- Case-sensitive literal match at the front of the text; returns the rest
of the text after the match. -/
def litList : List Char → List Char → Option (List Char)
  | [], rest => some rest
  | _ :: _, [] => none
  | k :: ks, c :: cs => if k == c then litList ks cs else none

/-- Tail `([a-zA-Z0-9-]+)\.[a-zA-Z]{2,}` of the URL pattern: the slug run
(maximal; shrinking it would place `\.` on a slug character, so backtracking
never helps), a literal dot, then at least two letters (maximal run). Returns
`(slug, characters consumed)`. -/
def trySlugTail (rest : List Char) : Option (List Char × Nat) :=
  match takeRun (fun c => c.isAlphanum || c = '-') rest with
  | (slug, r2) =>
    if slug = [] then none
    else
      match r2 with
      | '.' :: r3 =>
        match takeRun Char.isAlpha r3 with
        | (tld, _) =>
          if tld.length < 2 then none
          else some (slug, slug.length + 1 + tld.length)
      | _ => none

/-- Anchored attempt of `https?://(?:www\.)?([a-zA-Z0-9-]+)\.[a-zA-Z]{2,}` at
the current position: literal `http`, optional `s` (taking it cannot be
undone usefully, since `:` never matches `s`), literal `://`, then the
greedy optional `www.` — tried first, falling back to reading the slug from
the same position when the tail fails after it. Returns
`(group 1, length of group 0)`. -/
def tryUrl (text : List Char) : Option (List Char × Nat) :=
  match litList ['h','t','t','p'] text with
  | none => none
  | some r1 =>
    match
      (match r1 with
       | 's' :: rest => (1, rest)
       | _ => (0, r1) : Nat × List Char) with
    | (sLen, r2) =>
      match litList [':','/','/'] r2 with
      | none => none
      | some r3 =>
        let base := 4 + sLen + 3
        match litList ['w','w','w','.'] r3 with
        | some r4 =>
          match trySlugTail r4 with
          | some (slug, n) => some (slug, base + 4 + n)
          | none =>
            match trySlugTail r3 with
            | some (slug, n) => some (slug, base + n)
            | none => none
        | none =>
          match trySlugTail r3 with
          | some (slug, n) => some (slug, base + n)
          | none => none

/-- Strategy 4 scanner (`re.finditer` over the URL pattern): scan every
position, resume after each match; a slug found in the URL tool map inserts an
entity with the canonical name, entity_type "tool" and confidence 0.6. -/
def scanUrl : Nat → List Char → Found → Found
  | 0, _, found => found
  | _ + 1, [], found => found
  | fuel + 1, c :: cs, found =>
    match tryUrl (c :: cs) with
    | some (slug, totalLen) =>
      let slugLower := lowerStr (String.mk slug)
      let fd :=
        match urlToolMap.find? (fun p => p.1 == slugLower) with
        | some p =>
          insertAbsent found (lowerStr p.2)
            { name := p.2, entity_type := "tool"
              raw_mention := String.mk ((c :: cs).take totalLen)
              confidence := 3/5 }
        | none => found
      scanUrl fuel ((c :: cs).drop totalLen) fd
    | none => scanUrl fuel cs found

/-- LinkIntelEngine._keyword_entity_fallback: known names, six suffix
patterns, the prefix pattern, URL detection — in source order — then the
values of the insertion-ordered dict capped at 30. (The source also computes
a local `text_lower` that no strategy reads; it is omitted.) -/
def keywordEntityFallback (text : String) : List Entity :=
  let tl := text.data
  let fd1 := knownNameScan tl []
  let fd2 := suffixKeywords.foldl
    (fun fd kw => scanSuffix kw.data (tl.length + 1) false tl fd) fd1
  let fd3 := scanPref (tl.length + 1) tl fd2
  let fd4 := scanUrl (tl.length + 1) tl fd3
  (fd4.map Prod.snd).take 30

/-- PipelineEvent (`pipeline_bus.py`): an immutable progress notification.
The `data` dict is modelled as an association list and the timestamp as an
opaque string. -/
structure PipelineEvent where
  event_type : String
  engine : String
  step : String
  message : String
  data : List (String × String) := []
  timestamp : String := ""
deriving DecidableEq, Repr

/-- A subscriber queue of the bus: an `asyncio.Queue(maxsize=...)` plus an
identity. Python distinguishes queues by object identity (`list.remove`
compares identities); the model makes identity explicit with `qid`. -/
structure SubQueue where
  qid : Nat
  items : List PipelineEvent := []
  maxsize : Nat := 100
deriving DecidableEq, Repr

/-- State of a `PipelineBus`: the subscriber list (in subscription order), the
bounded history and a counter supplying fresh queue identities. -/
structure BusState where
  subscribers : List SubQueue := []
  history : List PipelineEvent := []
  next_id : Nat := 0
deriving DecidableEq, Repr

/-- The history bound `self._max_history`. -/
def maxHistory : Nat := 200

/-- PipelineBus.subscribe: create a fresh queue with capacity 100 and append
it to the subscriber list. -/
def subscribe (s : BusState) : BusState × SubQueue :=
  let q : SubQueue := { qid := s.next_id }
  ({ s with subscribers := s.subscribers ++ [q], next_id := s.next_id + 1 }, q)

/-- PipelineBus.unsubscribe: remove the first subscriber with the given
identity (`list.remove`; a missing queue is ignored). -/
def unsubscribe (s : BusState) (qid : Nat) : BusState :=
  { s with subscribers :=
      match s.subscribers.findIdx? (fun q => q.qid == qid) with
      | some i => s.subscribers.eraseIdx i
      | none => s.subscribers }

/-- Model of `asyncio.Queue.put_nowait` on a queue with positive `maxsize`:
append when the queue is not full, otherwise raise `QueueFull` (modelled as
`none`). This call never suspends the caller. -/
def putNowait (e : PipelineEvent) (q : SubQueue) : Option SubQueue :=
  if q.items.length < q.maxsize then some { q with items := q.items ++ [e] }
  else none

/-- PipelineBus.emit: append the event to the bounded history, push it to
every subscriber queue with `put_nowait`, and drop (unsubscribe) every queue
whose `put_nowait` raised `QueueFull`. The put loop and the subsequent
unsubscribe loop of the source amount to keeping, in order, exactly the
subscribers whose put succeeded. The publisher never blocks: `emit` is a
total state transformer built from non-suspending operations. -/
def emit (s : BusState) (e : PipelineEvent) : BusState :=
  let hist := s.history ++ [e]
  let hist := if maxHistory < hist.length then hist.drop (hist.length - maxHistory) else hist
  { s with subscribers := s.subscribers.filterMap (putNowait e), history := hist }

/-- A sequence of `emit` calls with no intervening subscriber activity (the
subscriber never drains its queue). -/
def emitAll (events : List PipelineEvent) (s : BusState) : BusState :=
  events.foldl emit s

/-- Spec-side overlap formula, following §4.4 of the specification word for
word: `overlap_score = |new.capabilities ∩ existing.capabilities| /
max(|new.capabilities|, |existing.capabilities|)`, rounded to 2 decimals, the
capability collections being read as the sets of strings the data model
declares; 0 when either set is empty (§3 invariant). Used only to compare
against the implementation-side `buildComparison`. -/
def specOverlapScore (a b : Finset String) : Rat :=
  if a = ∅ ∨ b = ∅ then 0
  else round2 ((((a ∩ b).card : Nat) : Rat) / ((max a.card b.card : Nat) : Rat))

/-!  Helper lemmas about the recommender. -/

theorem generateRecommendations_length (researched : List EntityResearch)
    (comparisons : List ToolComparison) :
    (generateRecommendations researched comparisons).length = researched.length := by
  simp [generateRecommendations]

theorem findComparison_mem {comparisons : List ToolComparison} {name : String}
    {c : ToolComparison} (h : findComparison comparisons name = some c) :
    c ∈ comparisons :=
  List.mem_reverse.mp (List.mem_of_find?_eq_some h)

/-- Assembly invariant of `analyze_url`, shared by several results below: the
action list and the tool list of the report always have equal length. -/
theorem analyzeUrl_lengths (env : Env) (url : String) :
    (analyzeUrl env url).recommended_actions.length =
      (analyzeUrl env url).discovered_tools.length := by
  by_cases h1 : (env.scrape url).1 = ""
  · simp [analyzeUrl, h1]
  · rcases hcomp : compareAll env
      ((env.extract (env.scrape url).1).map (researchEntity env.research))
      with msg | comps
    · simp [analyzeUrl, h1, hcomp]
    · simp [analyzeUrl, h1, hcomp, generateRecommendations]

/-- C1: for every completed run of `analyze_url` — over any environment, i.e.
any outcomes of the scrape, extraction, research and registry-lookup calls —
the returned report contains exactly one `RecommendedAction` per
`DiscoveredTool`: the two lists have equal length. Entities whose research
failed are still present (research falls back to a minimal tool), and the
error paths of the pipeline leave both lists empty. -/
theorem c1_one_action_per_tool (env : Env) (url : String) :
    (analyzeUrl env url).recommended_actions.length =
      (analyzeUrl env url).discovered_tools.length :=
  analyzeUrl_lengths env url

/-- C4: a discovered tool for which no comparison exists (no comparison
carries its name, i.e. the tool has no registry match) always receives the
recommendation `integrate` with priority 1. -/
theorem c4_no_match_integrate (researched : List EntityResearch)
    (comparisons : List ToolComparison) (i : Nat) (er : EntityResearch)
    (hi : researched[i]? = some er)
    (hnone : ∀ c ∈ comparisons, c.new_tool.name ≠ er.tool.name) :
    ∃ a, (generateRecommendations researched comparisons)[i]? = some a
      ∧ a.action = "integrate" ∧ a.priority = 1 := by
  have hfind : findComparison comparisons er.tool.name = none := by
    apply List.find?_eq_none.mpr
    intro c hc
    simp only [beq_iff_eq]
    exact hnone c (List.mem_reverse.mp hc)
  refine ⟨recommendFor comparisons er, ?_, ?_, ?_⟩
  · simp [generateRecommendations, List.getElem?_map, hi]
  · simp [recommendFor, hfind]
  · simp [recommendFor, hfind]

theorem c4_no_match_integrate_witness :
    (([{ entity := { name := "Foo" }, tool := { name := "Foo" } }] :
        List EntityResearch)[0]? =
      some { entity := { name := "Foo" }, tool := { name := "Foo" } })
    ∧ (∀ c ∈ ([] : List ToolComparison), c.new_tool.name ≠ "Foo")
    ∧ ∃ a, (generateRecommendations
        [{ entity := { name := "Foo" }, tool := { name := "Foo" } }] [])[0]? = some a
      ∧ a.action = "integrate" ∧ a.priority = 1 :=
  ⟨rfl, by simp,
    c4_no_match_integrate _ _ 0 _ rfl (by simp)⟩

/-- C10: every recommendation the recommender can produce, over any inputs,
has action `integrate`, `skip` or `evaluate`; the `replace` value of the data
model is never produced. -/
theorem c10_action_vocabulary (researched : List EntityResearch)
    (comparisons : List ToolComparison) (a : RecommendedAction)
    (ha : a ∈ generateRecommendations researched comparisons) :
    (a.action = "integrate" ∨ a.action = "skip" ∨ a.action = "evaluate")
      ∧ a.action ≠ "replace" := by
  rcases List.mem_map.mp ha with ⟨er, -, rfl⟩
  cases hf : findComparison comparisons er.tool.name with
  | none => simp [recommendFor, hf]
  | some comp =>
    simp only [recommendFor, hf]
    split_ifs <;> simp

/-- Concrete researched entity used by the C10 witness. -/
def c10Er : EntityResearch := { entity := { name := "Foo" }, tool := { name := "Foo" } }

theorem c10_action_vocabulary_witness :
    ((recommendFor [] c10Er) ∈ generateRecommendations [c10Er] [])
    ∧ (((recommendFor [] c10Er).action = "integrate"
        ∨ (recommendFor [] c10Er).action = "skip"
        ∨ (recommendFor [] c10Er).action = "evaluate")
      ∧ (recommendFor [] c10Er).action ≠ "replace") :=
  ⟨by simp [generateRecommendations],
    c10_action_vocabulary [c10Er] [] (recommendFor [] c10Er)
      (by simp [generateRecommendations])⟩

/-!  Helper lemmas for C5: every comparison the pipeline can build has an
existing tool with empty capabilities (because `_check_existing` never fills
that field in), hence overlap score 0. -/

theorem checkExisting_caps_empty {lookup : Entity → Except String (Option RegistryHit)}
    {entity : Entity} {ex : ExistingTool}
    (h : checkExisting lookup entity = .ok (some ex)) : ex.capabilities = [] := by
  unfold checkExisting at h
  cases hl : lookup entity with
  | error msg => rw [hl] at h; cases h
  | ok o =>
    cases o with
    | none => rw [hl] at h; cases h
    | some hit =>
      rw [hl] at h
      cases h
      rfl

theorem buildComparison_score_of_empty (t : DiscoveredTool) {ex : ExistingTool}
    (h : ex.capabilities = []) : (buildComparison t ex).overlap_score = 0 := by
  have : rawOverlap t ex = 0 := by
    rw [rawOverlap, if_neg]
    simp [h]
  show round2 (rawOverlap t ex) = 0
  rw [this, round2_zero]

theorem compareAll_scores_zero {env : Env} :
    ∀ {ers : List EntityResearch} {comps : List ToolComparison},
      compareAll env ers = .ok comps → ∀ c ∈ comps, c.overlap_score = 0 := by
  intro ers
  induction ers with
  | nil =>
    intro comps h c hc
    rw [compareAll] at h
    cases h
    cases hc
  | cons er rest ih =>
    intro comps h c hc
    rw [compareAll] at h
    cases hch : checkExisting env.lookup er.entity with
    | error msg => rw [hch] at h; cases h
    | ok o =>
      cases o with
      | none =>
        rw [hch] at h
        exact ih h c hc
      | some ex =>
        rw [hch] at h
        cases hrest : compareAll env rest with
        | error msg => rw [hrest] at h; cases h
        | ok comps' =>
          rw [hrest] at h
          revert hc
          cases h
          intro hc
          rcases List.mem_cons.mp hc with rfl | hc2
          · exact buildComparison_score_of_empty er.tool (checkExisting_caps_empty hch)
          · exact ih hrest c hc2

theorem recommendFor_integrate_of_zero (comps : List ToolComparison)
    (er : EntityResearch) (hz : ∀ c ∈ comps, c.overlap_score = 0) :
    (recommendFor comps er).action = "integrate"
      ∧ (recommendFor comps er).tool_name = er.tool.name := by
  cases hf : findComparison comps er.tool.name with
  | none => simp [recommendFor, hf]
  | some comp =>
    have h0 : comp.overlap_score = 0 := hz comp (findComparison_mem hf)
    have hc1 : ¬ (comp.overlap_score > 4/5 ∧ comp.new_capabilities = []) := by
      rw [h0]; intro hcon; exact absurd hcon.1 (by norm_num)
    have hc2 : ¬ comp.overlap_score > 1/2 := by rw [h0]; norm_num
    simp only [recommendFor, hf]
    rw [if_neg hc1, if_neg hc2]
    exact ⟨rfl, rfl⟩

/-- C5: research never raises — it is a total function of the entity and the
provider outcome — and on any internal failure (the outcome `fail`, e.g. a
search timeout) it returns a `DiscoveredTool` whose only populated field is
the entity's name, with empty capabilities; and in the report of any completed
run, that tool still occupies exactly one recommended-action slot (the lists
pair up positionally, and their lengths agree) whose action is `integrate`. -/
theorem c5_research_failure_contained (env : Env) (url : String) (i : Nat)
    (e : Entity) (raw : String) (srcs : List String)
    (hscrape : (env.scrape url).1 ≠ "")
    (hent : (env.extract (env.scrape url).1)[i]? = some e)
    (hfail : env.research e = .fail raw srcs)
    (comps : List ToolComparison)
    (hok : compareAll env
      ((env.extract (env.scrape url).1).map (researchEntity env.research)) = .ok comps) :
    (researchEntity env.research e).tool = minimalTool e.name
    ∧ minimalTool e.name = { name := e.name, vendor := "", description := "",
                             api_url := "", capabilities := [], auth_type := "",
                             has_free_tier := false, pricing_url := "", docs_url := "" }
    ∧ (analyzeUrl env url).discovered_tools[i]? = some (minimalTool e.name)
    ∧ ((analyzeUrl env url).recommended_actions[i]?).map
        (fun a => (a.tool_name, a.action)) = some (e.name, "integrate")
    ∧ (analyzeUrl env url).recommended_actions.length =
        (analyzeUrl env url).discovered_tools.length := by
  have hres : researchEntity env.research e = { entity := e, tool := minimalTool e.name,
                                                raw_research := raw.take 4000,
                                                sources := srcs } := by
    rw [researchEntity, hfail]
  refine ⟨by rw [hres], rfl, ?_, ?_, ?_⟩
  · simp [analyzeUrl, hscrape, hok, List.getElem?_map, hent, hres]
  · have hrec := recommendFor_integrate_of_zero comps (researchEntity env.research e)
      (compareAll_scores_zero hok)
    rw [hres] at hrec
    simp [analyzeUrl, hscrape, hok, generateRecommendations, List.getElem?_map, hent, hres]
    exact ⟨hrec.2, hrec.1⟩
  · exact analyzeUrl_lengths env url

/-- Concrete environment for the C5 witness: one extracted entity whose
research fails, no registry hits. -/
def c5Env : Env :=
  { scrape := fun _ => ("page", "")
    extract := fun _ => [{ name := "Foo" }]
    research := fun _ => .fail "" []
    lookup := fun _ => .ok none }

theorem c5_research_failure_contained_witness :
    ((c5Env.scrape "u").1 ≠ "")
    ∧ ((c5Env.extract (c5Env.scrape "u").1)[0]? = some { name := "Foo" })
    ∧ (c5Env.research { name := "Foo" } = .fail "" [])
    ∧ (compareAll c5Env
        ((c5Env.extract (c5Env.scrape "u").1).map (researchEntity c5Env.research)) = .ok [])
    ∧ ((researchEntity c5Env.research { name := "Foo" }).tool = minimalTool "Foo"
      ∧ minimalTool "Foo" = { name := "Foo", vendor := "", description := "",
                              api_url := "", capabilities := [], auth_type := "",
                              has_free_tier := false, pricing_url := "", docs_url := "" }
      ∧ (analyzeUrl c5Env "u").discovered_tools[0]? = some (minimalTool "Foo")
      ∧ ((analyzeUrl c5Env "u").recommended_actions[0]?).map
          (fun a => (a.tool_name, a.action)) = some ("Foo", "integrate")
      ∧ (analyzeUrl c5Env "u").recommended_actions.length =
          (analyzeUrl c5Env "u").discovered_tools.length) :=
  ⟨by decide, rfl, rfl, rfl,
    c5_research_failure_contained c5Env "u" 0 { name := "Foo" } "" []
      (by decide) rfl rfl [] rfl⟩

/-!  Concrete data and facts for the C3 scenario: a new tool with
capabilities search and rerank against an existing tool with capability
search. -/

/-- The new tool of the C3 scenario. -/
def c3NewTool : DiscoveredTool := { name := "NewTool", capabilities := ["search", "rerank"] }

/-- The existing registry tool of the C3 scenario. -/
def c3Existing : ExistingTool := { name := "NewTool", capabilities := ["search"] }

/-- The researched entity of the C3 scenario. -/
def c3Research : EntityResearch := { entity := { name := "NewTool" }, tool := c3NewTool }

theorem c3Score : (buildComparison c3NewTool c3Existing).overlap_score = 1/2 := by
  have honly : newOnlyCaps c3NewTool c3Existing = ["rerank"] := by decide
  have hraw : rawOverlap c3NewTool c3Existing = 1/2 := by
    rw [rawOverlap, if_pos (by simp [c3NewTool, c3Existing])]
    rw [honly]
    simp [c3NewTool, c3Existing]
  show round2 (rawOverlap c3NewTool c3Existing) = 1/2
  rw [hraw, round2_half]

theorem c3ActionFacts :
    (recommendFor [buildComparison c3NewTool c3Existing] c3Research).action = "integrate"
    ∧ (recommendFor [buildComparison c3NewTool c3Existing] c3Research).priority = 2 := by
  have hfind : findComparison [buildComparison c3NewTool c3Existing] c3Research.tool.name
      = some (buildComparison c3NewTool c3Existing) := rfl
  have hc1 : ¬ ((buildComparison c3NewTool c3Existing).overlap_score > 4/5
      ∧ (buildComparison c3NewTool c3Existing).new_capabilities = []) := by
    rw [c3Score]; intro hcon; exact absurd hcon.1 (by norm_num)
  have hc2 : ¬ (buildComparison c3NewTool c3Existing).overlap_score > 1/2 := by
    rw [c3Score]; norm_num
  simp only [recommendFor, hfind]
  rw [if_neg hc1, if_neg hc2]
  exact ⟨rfl, rfl⟩

/-- C3 counterexample: in the scenario of the claim the overlap score and the
new capabilities come out as stated, but the recommendation is not
`evaluate` — the rule requires an overlap strictly greater than 0.5, and the
scenario produces exactly 0.5, which falls into the `integrate` branch. -/
theorem c3_counterexample :
    ¬ ((buildComparison c3NewTool c3Existing).overlap_score = 1/2
       ∧ (buildComparison c3NewTool c3Existing).new_capabilities = ["rerank"]
       ∧ ∃ a ∈ generateRecommendations [c3Research] [buildComparison c3NewTool c3Existing],
           a.action = "evaluate") := by
  rintro ⟨-, -, a, ha, hact⟩
  have ha' : a = recommendFor [buildComparison c3NewTool c3Existing] c3Research := by
    simpa [generateRecommendations] using ha
  rw [ha', c3ActionFacts.1] at hact
  exact absurd hact (by decide)

/-- C3 amended: comparing the new tool with capabilities search, rerank
against the existing tool with capability search yields overlap_score 0.5 and
new_capabilities rerank, and the recommended action for the tool is
`integrate` with priority 2 (not `evaluate`: the evaluate rule fires only for
overlap_score strictly greater than 0.5). -/
theorem c3_amended :
    (buildComparison c3NewTool c3Existing).overlap_score = 1/2
    ∧ (buildComparison c3NewTool c3Existing).new_capabilities = ["rerank"]
    ∧ (generateRecommendations [c3Research] [buildComparison c3NewTool c3Existing]).map
        (fun a => (a.tool_name, a.action, a.priority)) = [("NewTool", "integrate", 2)] := by
  refine ⟨c3Score, by decide, ?_⟩
  have hname : (recommendFor [buildComparison c3NewTool c3Existing] c3Research).tool_name
      = "NewTool" := by
    cases hfind : findComparison [buildComparison c3NewTool c3Existing] c3Research.tool.name
      with
    | none => simp [recommendFor, hfind]; rfl
    | some comp => simp only [recommendFor, hfind]; split_ifs <;> rfl
  simp [generateRecommendations, hname, c3ActionFacts.1, c3ActionFacts.2]

/-!  Bounds on the rounding helper and the raw overlap, for C9. -/

theorem rawOverlap_nonneg (t : DiscoveredTool) (ex : ExistingTool) :
    0 ≤ rawOverlap t ex := by
  rw [rawOverlap]
  split
  · positivity
  · exact le_refl 0

theorem rawOverlap_le_one (t : DiscoveredTool) (ex : ExistingTool) :
    rawOverlap t ex ≤ 1 := by
  rw [rawOverlap]
  split
  case isTrue h =>
    have hn : 0 < t.capabilities.length := List.length_pos.mpr h.1
    have hm : 0 < max t.capabilities.length ex.capabilities.length :=
      lt_of_lt_of_le hn (le_max_left _ _)
    have hm' : (0 : Rat) < ((max t.capabilities.length ex.capabilities.length : Nat) : Rat) := by
      exact_mod_cast hm
    rw [div_le_one hm']
    have hle : t.capabilities.length - (newOnlyCaps t ex).length
        ≤ max t.capabilities.length ex.capabilities.length :=
      le_trans (Nat.sub_le _ _) (le_max_left _ _)
    exact_mod_cast hle
  case isFalse h => norm_num

theorem rndHalfEven_nonneg {x : Rat} (hx : 0 ≤ x) : 0 ≤ rndHalfEven x := by
  rw [rndHalfEven]
  have hf : 0 ≤ ⌊x⌋ := Int.floor_nonneg.mpr hx
  split_ifs <;> omega

theorem rndHalfEven_le_hundred {x : Rat} (hx : x ≤ 100) : rndHalfEven x ≤ 100 := by
  have hfle : (⌊x⌋ : Rat) ≤ x := Int.floor_le x
  have hf : ⌊x⌋ ≤ 100 := by
    have : (⌊x⌋ : Rat) ≤ 100 := le_trans hfle hx
    exact_mod_cast this
  rw [rndHalfEven]
  split_ifs with h1 h2 h3
  · exact hf
  · have hhalf : (⌊x⌋ : Rat) + 1/2 ≤ x := by linarith [not_lt.mp h1]
    have : (⌊x⌋ : Rat) < 100 := by linarith
    have hflt : ⌊x⌋ < 100 := by exact_mod_cast this
    omega
  · exact hf
  · have hhalf : (⌊x⌋ : Rat) + 1/2 ≤ x := by linarith [not_lt.mp h1]
    have : (⌊x⌋ : Rat) < 100 := by linarith
    have hflt : ⌊x⌋ < 100 := by exact_mod_cast this
    omega

/-- C9: the overlap score produced by the comparator is always in [0, 1] and
is an integer number of hundredths (i.e. a value rounded to 2 decimal
places), for every pair of tools — including capability lists with duplicate
or differently-cased entries, which are in no way restricted here. -/
theorem c9_overlap_bounds (t : DiscoveredTool) (ex : ExistingTool) :
    0 ≤ (buildComparison t ex).overlap_score
    ∧ (buildComparison t ex).overlap_score ≤ 1
    ∧ ∃ k : Int, 0 ≤ k ∧ k ≤ 100
        ∧ (buildComparison t ex).overlap_score = (k : Rat) / 100 := by
  have h0 := rawOverlap_nonneg t ex
  have h1 := rawOverlap_le_one t ex
  have hk0 : 0 ≤ rndHalfEven (rawOverlap t ex * 100) := rndHalfEven_nonneg (by positivity)
  have hk1 : rndHalfEven (rawOverlap t ex * 100) ≤ 100 :=
    rndHalfEven_le_hundred (by linarith)
  have hscore : (buildComparison t ex).overlap_score
      = ((rndHalfEven (rawOverlap t ex * 100) : Int) : Rat) / 100 := rfl
  refine ⟨?_, ?_, rndHalfEven (rawOverlap t ex * 100), hk0, hk1, hscore⟩
  · rw [hscore]
    have : (0 : Rat) ≤ ((rndHalfEven (rawOverlap t ex * 100) : Int) : Rat) := by
      exact_mod_cast hk0
    positivity
  · rw [hscore, div_le_one (by norm_num)]
    exact_mod_cast hk1

/-!  C2: the spec formula for the comparator versus the implementation. -/

theorem length_filter_not_add {α : Type} (l : List α) (p : α → Bool) :
    (l.filter p).length + (l.filter (fun a => !(p a))).length = l.length := by
  induction l with
  | nil => rfl
  | cons a l ih => by_cases h : p a <;> simp [List.filter_cons, h] <;> omega

/-- The new tool of the C2 counterexample: capability entries that differ
only in case. -/
def c2NewTool : DiscoveredTool := { name := "N", capabilities := ["Search", "search"] }

/-- The existing tool of the C2 counterexample. -/
def c2Existing : ExistingTool := { name := "N", capabilities := ["search"] }

/-- C2 counterexample: for the tools above, the implementation returns
overlap_score 1 (it compares capabilities case-insensitively and counts
list entries), while the literal spec formula over the capability string sets
gives |{Search, search} ∩ {search}| / max(2, 1) = 1/2; so the claimed equality
fails. -/
theorem c2_counterexample :
    ¬ ((buildComparison c2NewTool c2Existing).overlap_score
         = specOverlapScore c2NewTool.capabilities.toFinset c2Existing.capabilities.toFinset
       ∧ (buildComparison c2NewTool c2Existing).new_capabilities.toFinset
         = c2NewTool.capabilities.toFinset \ c2Existing.capabilities.toFinset) := by
  rintro ⟨h1, -⟩
  have honly : newOnlyCaps c2NewTool c2Existing = [] := by decide
  have hL : (buildComparison c2NewTool c2Existing).overlap_score = 1 := by
    have hraw : rawOverlap c2NewTool c2Existing = 1 := by
      rw [rawOverlap, if_pos (by simp [c2NewTool, c2Existing])]
      rw [honly]
      simp [c2NewTool, c2Existing]
    show round2 (rawOverlap c2NewTool c2Existing) = 1
    rw [hraw, round2_one]
  have hinter : c2NewTool.capabilities.toFinset ∩ c2Existing.capabilities.toFinset
      = {"search"} := by decide
  have hcards : c2NewTool.capabilities.toFinset.card = 2
      ∧ c2Existing.capabilities.toFinset.card = 1 := by decide
  have hR : specOverlapScore c2NewTool.capabilities.toFinset
      c2Existing.capabilities.toFinset = 1/2 := by
    rw [specOverlapScore, if_neg (by decide), hinter, hcards.1, hcards.2]
    have hc : (({"search"} : Finset String).card : Nat) = 1 := by decide
    rw [hc]
    norm_num [round2_half]
  rw [hL, hR] at h1
  norm_num at h1

/-- C2 amended: the implementation compares capabilities case-insensitively,
so the spec formula holds over the lowercased capability sets, provided each
capability list is duplicate-free after lowercasing (the implementation counts
list entries, the formula counts set elements): the overlap score equals
|L(new) ∩ L(existing)| / max(|L(new)|, |L(existing)|) rounded to 2 decimals,
where L is the lowercased capability set; the lowercased set of
new_capabilities is the set difference L(new) − L(existing); and the overlap
score is 0 whenever either capability list is empty. -/
theorem c2_amended (t : DiscoveredTool) (ex : ExistingTool)
    (hn : (t.capabilities.map lowerStr).Nodup)
    (he : (ex.capabilities.map lowerStr).Nodup) :
    (buildComparison t ex).overlap_score
      = specOverlapScore (t.capabilities.map lowerStr).toFinset
          (ex.capabilities.map lowerStr).toFinset
    ∧ ((buildComparison t ex).new_capabilities.map lowerStr).toFinset
      = (t.capabilities.map lowerStr).toFinset \ (ex.capabilities.map lowerStr).toFinset
    ∧ ((t.capabilities = [] ∨ ex.capabilities = [])
        → (buildComparison t ex).overlap_score = 0) := by
  have hzero : ∀ tt : DiscoveredTool, ∀ exx : ExistingTool,
      (tt.capabilities = [] ∨ exx.capabilities = [])
        → (buildComparison tt exx).overlap_score = 0 := by
    intro tt exx h
    have : rawOverlap tt exx = 0 := by
      rw [rawOverlap, if_neg]
      rcases h with h | h <;> simp [h]
    show round2 (rawOverlap tt exx) = 0
    rw [this, round2_zero]
  set pIn : String → Bool :=
    fun c => (ex.capabilities.map lowerStr).contains (lowerStr c) with hpIn
  have honly : newOnlyCaps t ex = t.capabilities.filter (fun c => !(pIn c)) := rfl
  have hmap1 : (t.capabilities.filter pIn).map lowerStr
      = (t.capabilities.map lowerStr).filter
          (fun x => (ex.capabilities.map lowerStr).contains x) := by
    rw [List.filter_map]
    rfl
  have hmap2 : ((newOnlyCaps t ex).map lowerStr)
      = (t.capabilities.map lowerStr).filter
          (fun x => !((ex.capabilities.map lowerStr).contains x)) := by
    rw [honly, List.filter_map]
    rfl
  have hsetIn : ((t.capabilities.map lowerStr).filter
        (fun x => (ex.capabilities.map lowerStr).contains x)).toFinset
      = (t.capabilities.map lowerStr).toFinset ∩ (ex.capabilities.map lowerStr).toFinset := by
    rw [List.toFinset_filter]
    ext x
    simp [List.elem_iff, List.mem_toFinset]
  have hsetOut : ((t.capabilities.map lowerStr).filter
        (fun x => !((ex.capabilities.map lowerStr).contains x))).toFinset
      = (t.capabilities.map lowerStr).toFinset \ (ex.capabilities.map lowerStr).toFinset := by
    rw [List.toFinset_filter]
    ext x
    simp [List.elem_iff, List.mem_toFinset]
  refine ⟨?_, ?_, hzero t ex⟩
  · by_cases hte : t.capabilities = [] ∨ ex.capabilities = []
    · rw [hzero t ex hte, specOverlapScore, if_pos]
      rcases hte with h | h <;> simp [h]
    · push_neg at hte
      have hA : (t.capabilities.map lowerStr).toFinset ≠ ∅ := by
        intro h
        exact hte.1 (List.map_eq_nil_iff.mp ((List.toFinset_eq_empty_iff _).mp h))
      have hB : (ex.capabilities.map lowerStr).toFinset ≠ ∅ := by
        intro h
        exact hte.2 (List.map_eq_nil_iff.mp ((List.toFinset_eq_empty_iff _).mp h))
      have hAcard : (t.capabilities.map lowerStr).toFinset.card = t.capabilities.length := by
        rw [List.toFinset_card_of_nodup hn, List.length_map]
      have hBcard : (ex.capabilities.map lowerStr).toFinset.card = ex.capabilities.length := by
        rw [List.toFinset_card_of_nodup he, List.length_map]
      have hIcard : ((t.capabilities.map lowerStr).toFinset
            ∩ (ex.capabilities.map lowerStr).toFinset).card
          = (t.capabilities.filter pIn).length := by
        rw [← hsetIn, List.toFinset_card_of_nodup (hn.filter _), ← hmap1, List.length_map]
      have hflen : t.capabilities.length - (newOnlyCaps t ex).length
          = (t.capabilities.filter pIn).length := by
        have hsplit := length_filter_not_add t.capabilities pIn
        have honlylen : (newOnlyCaps t ex).length
            = (t.capabilities.filter (fun c => !(pIn c))).length := by rw [honly]
        omega
      show round2 (rawOverlap t ex) = _
      rw [specOverlapScore, if_neg (by simp [hA, hB])]
      rw [rawOverlap, if_pos ⟨hte.1, hte.2⟩]
      rw [hIcard, hAcard, hBcard, hflen]
  · show ((newOnlyCaps t ex).map lowerStr).toFinset = _
    rw [hmap2, hsetOut]

/-- Concrete tools for the C2 witness: duplicate-free, consistently cased
capability lists. -/
def c2WitTool : DiscoveredTool := { name := "W", capabilities := ["search", "rerank"] }

/-- Existing tool for the C2 witness. -/
def c2WitExisting : ExistingTool := { name := "W", capabilities := ["search"] }

theorem c2_amended_witness :
    ((c2WitTool.capabilities.map lowerStr).Nodup)
    ∧ ((c2WitExisting.capabilities.map lowerStr).Nodup)
    ∧ ((buildComparison c2WitTool c2WitExisting).overlap_score
        = specOverlapScore (c2WitTool.capabilities.map lowerStr).toFinset
            (c2WitExisting.capabilities.map lowerStr).toFinset
      ∧ ((buildComparison c2WitTool c2WitExisting).new_capabilities.map lowerStr).toFinset
        = (c2WitTool.capabilities.map lowerStr).toFinset
            \ (c2WitExisting.capabilities.map lowerStr).toFinset
      ∧ ((c2WitTool.capabilities = [] ∨ c2WitExisting.capabilities = [])
          → (buildComparison c2WitTool c2WitExisting).overlap_score = 0)) :=
  ⟨by decide, by decide, c2_amended c2WitTool c2WitExisting (by decide) (by decide)⟩

/-- C6: the heuristic keyword fallback extractor is a total function of the
input text — in particular it cannot throw and consults no external
resource — and for every input, including the empty string and arbitrary
(binary-garbage) character data, it returns at most 30 entities. -/
theorem c6_fallback_cap (text : String) :
    (keywordEntityFallback text).length ≤ 30 := by
  have h : ∀ l : List Entity, (l.take 30).length ≤ 30 := by
    intro l
    simp [List.length_take]
  exact h _

/-!  C7 machinery: head preservation through the fallback stages, and the
word-boundary search succeeding on any text containing the scenario
phrase. -/

/-- The page-text phrase of the C7 scenario. -/
def c7Phrase : String := "Built with Tavily and the Reka AI API"

theorem insertAbsent_head {fd : Found} {x : String × Entity} (k : String)
    (e : Entity) (h : fd.head? = some x) : (insertAbsent fd k e).head? = some x := by
  rw [insertAbsent]
  split
  · exact h
  · cases fd with
    | nil => cases h
    | cons a l => simpa using h

theorem foldl_insert_head {β : Type} (step : Found → β → Found)
    (hstep : ∀ fd b x, fd.head? = some x → (step fd b).head? = some x) :
    ∀ (l : List β) (fd : Found) (x : String × Entity),
      fd.head? = some x → (l.foldl step fd).head? = some x := by
  intro l
  induction l with
  | nil => intro fd x h; exact h
  | cons b bs ih => intro fd x h; exact ih _ _ (hstep fd b x h)

theorem knownNameStep_head (text : List Char) (fd : Found) (name : String)
    {x : String × Entity} (h : fd.head? = some x) :
    (knownNameStep text fd name).head? = some x := by
  rw [knownNameStep]
  split
  · exact insertAbsent_head _ _ h
  · exact h

theorem scanSuffix_head (kw : List Char) :
    ∀ (fuel : Nat) (prev : Bool) (text : List Char) (fd : Found) (x : String × Entity),
      fd.head? = some x → (scanSuffix kw fuel prev text fd).head? = some x := by
  intro fuel
  induction fuel with
  | zero => intro prev text fd x h; exact h
  | succ fuel ih =>
    intro prev text fd x h
    cases text with
    | nil => exact h
    | cons c cs =>
      rw [scanSuffix]
      split
      · split
        · exact ih _ _ _ _ (insertAbsent_head _ _ h)
        · exact ih _ _ _ _ h
      · exact ih _ _ _ _ h

theorem scanPref_head :
    ∀ (fuel : Nat) (text : List Char) (fd : Found) (x : String × Entity),
      fd.head? = some x → (scanPref fuel text fd).head? = some x := by
  intro fuel
  induction fuel with
  | zero => intro text fd x h; exact h
  | succ fuel ih =>
    intro text fd x h
    cases text with
    | nil => exact h
    | cons c cs =>
      rw [scanPref]
      split
      · exact ih _ _ _ (insertAbsent_head _ _ h)
      · exact ih _ _ _ h

theorem scanUrl_head :
    ∀ (fuel : Nat) (text : List Char) (fd : Found) (x : String × Entity),
      fd.head? = some x → (scanUrl fuel text fd).head? = some x := by
  intro fuel
  induction fuel with
  | zero => intro text fd x h; exact h
  | succ fuel ih =>
    intro text fd x h
    cases text with
    | nil => exact h
    | cons c cs =>
      rw [scanUrl]
      split
      · apply ih
        split
        · exact insertAbsent_head _ _ h
        · exact h
      · exact ih _ _ _ h

theorem head_mem_take30 {l : List Entity} {e : Entity} (h : l.head? = some e) :
    e ∈ l.take 30 := by
  cases l with
  | nil => cases h
  | cons a l' =>
    cases h
    simp

/-- Any text on which the word-boundary search finds Tavily yields a fallback
result containing an entity named Tavily: Tavily is the first name of the
curated list, so its entry is the first one inserted into the (insertion
ordered) dict, every later stage only adds absent keys, and the head of the
dict always survives the cap of 30. -/
theorem fallback_has_tavily (text : String)
    (h : (findNameFrom "Tavily".data false text.data).isSome) :
    ∃ e ∈ keywordEntityFallback text, e.name = "Tavily" := by
  obtain ⟨m, hm⟩ := Option.isSome_iff_exists.mp h
  have h1 : ∃ ent : Entity, ent.name = "Tavily" ∧
      (knownNameScan text.data []).head? = some (lowerStr "Tavily", ent) := by
    refine ⟨{ name := "Tavily", entity_type := "tool", raw_mention := String.mk m
              confidence := 7/10 }, rfl, ?_⟩
    rw [knownNameScan]
    rw [show knownToolNames = "Tavily" :: knownToolNames.tail from rfl, List.foldl_cons]
    apply foldl_insert_head (knownNameStep text.data) (knownNameStep_head text.data)
    rw [knownNameStep, hm]
    simp [insertAbsent]
  obtain ⟨ent, hname, hhead⟩ := h1
  have h2 : (keywordEntityFallback text).head? = some ent := by
    rw [keywordEntityFallback]
    have h4 :
        (scanUrl (text.data.length + 1) text.data
          (scanPref (text.data.length + 1) text.data
            (suffixKeywords.foldl
              (fun fd kw => scanSuffix kw.data (text.data.length + 1) false text.data fd)
              (knownNameScan text.data [])))).head? = some (lowerStr "Tavily", ent) := by
      apply scanUrl_head
      apply scanPref_head
      apply foldl_insert_head _
        (fun fd b x hh => scanSuffix_head b.data _ _ _ _ _ hh)
      exact hhead
    have hmap : ((scanUrl (text.data.length + 1) text.data
          (scanPref (text.data.length + 1) text.data
            (suffixKeywords.foldl
              (fun fd kw => scanSuffix kw.data (text.data.length + 1) false text.data fd)
              (knownNameScan text.data [])))).map Prod.snd).head? = some ent := by
      rw [List.head?_map, h4]
      rfl
    cases hlist : (scanUrl (text.data.length + 1) text.data
          (scanPref (text.data.length + 1) text.data
            (suffixKeywords.foldl
              (fun fd kw => scanSuffix kw.data (text.data.length + 1) false text.data fd)
              (knownNameScan text.data [])))).map Prod.snd with
    | nil => rw [hlist] at hmap; cases hmap
    | cons a l' =>
      rw [hlist] at hmap
      simpa using hmap
  refine ⟨ent, ?_, hname⟩
  have := head_mem_take30 (l := keywordEntityFallback text) (e := ent) h2
  exact List.mem_of_mem_take this

/-- Whether the character preceding the current scan position is a word
character, after the scan has consumed `l` starting from context `prev`. -/
def prevAfter (prev : Bool) (l : List Char) : Bool :=
  l.foldl (fun _ c => wordChar c) prev

theorem findNameFrom_append (name : List Char) (pre : List Char) :
    ∀ (prev : Bool) (text : List Char),
      (findNameFrom name (prevAfter prev pre) text).isSome = true →
      (findNameFrom name prev (pre ++ text)).isSome = true := by
  induction pre with
  | nil => intro prev text h; simpa [prevAfter] using h
  | cons c cs ih =>
    intro prev text h
    show (findNameFrom name prev (c :: (cs ++ text))).isSome = true
    rw [findNameFrom]
    split
    · simp
    · apply ih
      simpa [prevAfter] using h

theorem c7PhraseHasTavily (pre suf : List Char) :
    (findNameFrom "Tavily".data false
      (pre ++ (c7Phrase.data ++ suf))).isSome = true := by
  apply findNameFrom_append
  generalize prevAfter false pre = b
  cases b <;> rfl

set_option maxRecDepth 4000000

/-- A page text defeating the C7 claim: thirty known tool names appear before
the scenario phrase, filling the 30-entity cap before the suffix-pattern
strategy can add the Reka AI entity. -/
def c7BadText : String :=
  "Tavily Reka Fastino Neo4j Yutori Senso Modulate Airbyte Render AWS OpenAI Numeric LangChain Anthropic Pinecone Weaviate Cohere Replicate Mistral Groq Perplexity Vercel Supabase Firebase MongoDB Redis Postgres Stripe Twilio SendGrid Built with Tavily and the Reka AI API"

/-- C7 counterexample: `c7BadText` contains the phrase of the claim, yet the
fallback result contains no entity named Reka AI — the 30 known names seen
first exhaust the result cap, and the suffix-pattern entity is cut off. -/
theorem c7_counterexample :
    (∃ pre suf : List Char, c7BadText.data = pre ++ c7Phrase.data ++ suf)
    ∧ ¬ (∃ e ∈ keywordEntityFallback c7BadText, e.name = "Reka AI") := by
  constructor
  · refine ⟨("Tavily Reka Fastino Neo4j Yutori Senso Modulate Airbyte Render AWS OpenAI Numeric LangChain Anthropic Pinecone Weaviate Cohere Replicate Mistral Groq Perplexity Vercel Supabase Firebase MongoDB Redis Postgres Stripe Twilio SendGrid ").data, [], ?_⟩
    decide
  · decide

/-- C7 amended: for every page text containing the phrase "Built with Tavily
and the Reka AI API", the heuristic fallback yields an entity named Tavily
(via the known-name strategy; Tavily heads the curated list, so the cap of 30
cannot remove it); and on the page text consisting of the phrase itself the
result also contains an entity named Reka AI (via the suffix-pattern
strategy). The Reka AI half does not extend to arbitrary surrounding text:
the result cap can evict it (see the counterexample). -/
theorem c7_amended :
    (∀ pre suf : List Char,
      ∃ e ∈ keywordEntityFallback (String.mk (pre ++ c7Phrase.data ++ suf)),
        e.name = "Tavily")
    ∧ (∃ e ∈ keywordEntityFallback c7Phrase, e.name = "Reka AI") := by
  constructor
  · intro pre suf
    apply fallback_has_tavily
    show (findNameFrom "Tavily".data false (pre ++ c7Phrase.data ++ suf)).isSome = true
    rw [List.append_assoc]
    exact c7PhraseHasTavily pre suf
  · decide

set_option maxRecDepth 512

/-!  C8: a subscriber that never drains is dropped once its queue fills. -/

theorem putNowait_qid {e : PipelineEvent} {q q' : SubQueue}
    (h : putNowait e q = some q') : q'.qid = q.qid := by
  rw [putNowait] at h
  split at h
  · cases h; rfl
  · cases h

theorem emit_id_absent {s : BusState} {e : PipelineEvent} {i : Nat}
    (h : ∀ q ∈ s.subscribers, q.qid ≠ i) :
    ∀ q ∈ (emit s e).subscribers, q.qid ≠ i := by
  intro q hq
  rcases List.mem_filterMap.mp hq with ⟨q₀, hq₀, hput⟩
  rw [putNowait_qid hput]
  exact h q₀ hq₀

theorem emitAll_id_absent {i : Nat} :
    ∀ (events : List PipelineEvent) (s : BusState),
      (∀ q ∈ s.subscribers, q.qid ≠ i) →
      ∀ q ∈ (emitAll events s).subscribers, q.qid ≠ i := by
  intro events
  induction events with
  | nil => intro s h; exact h
  | cons e rest ih =>
    intro s h
    exact ih (emit s e) (emit_id_absent h)

theorem emitAll_drops_overloaded :
    ∀ (events : List PipelineEvent) (s : BusState) (q : SubQueue),
      q ∈ s.subscribers →
      (∀ q' ∈ s.subscribers, q'.qid = q.qid → q' = q) →
      q.items.length ≤ q.maxsize →
      q.maxsize < q.items.length + events.length →
      ∀ q' ∈ (emitAll events s).subscribers, q'.qid ≠ q.qid := by
  intro events
  induction events with
  | nil =>
    intro s q hmem huniq hle hlt
    simp at hlt
    omega
  | cons e rest ih =>
    intro s q hmem huniq hle hlt
    show ∀ q' ∈ (emitAll rest (emit s e)).subscribers, q'.qid ≠ q.qid
    by_cases hfull : q.items.length < q.maxsize
    · have hput : putNowait e q = some { q with items := q.items ++ [e] } := by
        rw [putNowait, if_pos hfull]
      apply ih (emit s e) { q with items := q.items ++ [e] }
      · exact List.mem_filterMap.mpr ⟨q, hmem, hput⟩
      · intro q' hq' hid
        rcases List.mem_filterMap.mp hq' with ⟨q₀, hq₀, hput₀⟩
        have hq₀q : q₀ = q := huniq q₀ hq₀ (by rw [← putNowait_qid hput₀]; exact hid)
        rw [hq₀q, hput] at hput₀
        exact (Option.some.injEq _ _ ▸ hput₀).symm
      · simpa using hfull
      · simp at hlt ⊢
        omega
    · have hput : putNowait e q = none := by
        rw [putNowait, if_neg hfull]
      have habs : ∀ q' ∈ (emit s e).subscribers, q'.qid ≠ q.qid := by
        intro q' hq' hid
        rcases List.mem_filterMap.mp hq' with ⟨q₀, hq₀, hput₀⟩
        have hq₀q : q₀ = q := huniq q₀ hq₀ (by rw [← putNowait_qid hput₀]; exact hid)
        rw [hq₀q, hput] at hput₀
        cases hput₀
      exact emitAll_id_absent rest (emit s e) habs

/-- C8: publishing `N` events to a bus holding a subscriber whose queue has
capacity `C` and starts empty, where `N > C` and the subscriber never drains
(no intervening queue reads, no other subscriber operations), removes that
subscriber from the subscriber set. No publish blocks the publisher: each
emit delivers via `put_nowait` (a non-suspending call, modelled by the total
function `putNowait`), and a full queue makes the subscriber be dropped
instead of back-pressuring. -/
theorem c8_full_subscriber_dropped (events : List PipelineEvent) (s : BusState)
    (q : SubQueue) (hmem : q ∈ s.subscribers)
    (huniq : ∀ q' ∈ s.subscribers, q'.qid = q.qid → q' = q)
    (hempty : q.items = [])
    (hN : q.maxsize < events.length) :
    ∀ q' ∈ (emitAll events s).subscribers, q'.qid ≠ q.qid := by
  apply emitAll_drops_overloaded events s q hmem huniq
  · rw [hempty]; exact Nat.zero_le _
  · rw [hempty]; simpa using hN

/-- The event used by the C8 witness. -/
def c8Event : PipelineEvent :=
  { event_type := "step", engine := "link_intel", step := "scrape", message := "m" }

/-- A small-capacity queue for the C8 witness (the bus itself always creates
queues of capacity 100; the theorem covers any capacity, and a capacity of 2
keeps the witness computation small). -/
def c8Queue : SubQueue := { qid := 7, maxsize := 2 }

/-- The initial bus state of the C8 witness: exactly one subscriber. -/
def c8State : BusState := { subscribers := [c8Queue], next_id := 8 }

theorem c8_full_subscriber_dropped_witness :
    (c8Queue ∈ c8State.subscribers)
    ∧ (∀ q' ∈ c8State.subscribers, q'.qid = c8Queue.qid → q' = c8Queue)
    ∧ (c8Queue.items = [])
    ∧ (c8Queue.maxsize < (List.replicate 3 c8Event).length)
    ∧ ∀ q' ∈ (emitAll (List.replicate 3 c8Event) c8State).subscribers,
        q'.qid ≠ c8Queue.qid :=
  ⟨by decide, by decide, rfl, by decide,
    c8_full_subscriber_dropped (List.replicate 3 c8Event) c8State c8Queue
      (by decide) (by decide) rfl (by decide)⟩

end HackForge
